import Mathlib

/-!
Shallow embedding of the geometry & tiling engine of `indoor-map-lib`
(src/bounding_box.rs, src/util.rs, src/svg_path_parser.rs, src/svg_parser.rs,
src/bin/svg_splitter/{tile.rs, tile_iterator.rs, layer.rs}), with theorems
settling the specification claims.

Numeric model: the source computes in IEEE `f32`/`f64`; here every numeric
value is an exact rational (`ℚ`).  All claims considered are about affine
arithmetic, comparisons and min/max, which the floats perform exactly on the
concrete inputs appearing below, so `ℚ` is a faithful model there; where the
source divides by zero (producing non-finite floats) the rational model
returns the junk value `0`, and the theorems state that explicitly.
-/

namespace IndoorMap

/-- 2D vector of rationals, modelling `nalgebra::Vector2<f64>` (and `<f32>`). -/
structure Vec2 where
  x : ℚ
  y : ℚ
deriving DecidableEq, Repr

instance : Add Vec2 := ⟨fun a b => ⟨a.x + b.x, a.y + b.y⟩⟩
instance : Sub Vec2 := ⟨fun a b => ⟨a.x - b.x, a.y - b.y⟩⟩

/-- Scalar multiple of a vector (`edge_length * coords.location.map(...)`). -/
def Vec2.smul (k : ℚ) (v : Vec2) : Vec2 := ⟨k * v.x, k * v.y⟩

/-- `BoundingBox` from src/bounding_box.rs: top-left point plus size. -/
structure BoundingBox where
  top_left : Vec2
  size : Vec2
deriving DecidableEq, Repr

namespace BoundingBox

/-- `BoundingBox::new`: stores the fields with no validation. -/
def new (top_left size : Vec2) : BoundingBox := ⟨top_left, size⟩

/-- `BoundingBox::intersects` (src/bounding_box.rs lines 17–23). -/
def intersects (self other : BoundingBox) : Bool :=
  let self_left_of_other := self.top_left.x + self.size.x < other.top_left.x
  let other_left_of_self := other.top_left.x + other.size.x < self.top_left.x
  let self_below_other := self.top_left.y + self.size.y < other.top_left.y
  let other_below_self := other.top_left.y + other.size.y < self.top_left.y
  !(self_left_of_other || other_left_of_self || self_below_other || other_below_self)

/-- `BoundingBox::get_top_left`. -/
def get_top_left (self : BoundingBox) : Vec2 := self.top_left

/-- `BoundingBox::get_size`. -/
def get_size (self : BoundingBox) : Vec2 := self.size

/-- `BoundingBox::get_bottom_right`. -/
def get_bottom_right (self : BoundingBox) : Vec2 := self.top_left + self.size

end BoundingBox

/-- `BoundingSquare` from src/bounding_box.rs: top-left plus edge length. -/
structure BoundingSquare where
  top_left : Vec2
  size : ℚ
deriving DecidableEq, Repr

namespace BoundingSquare

/-- `BoundingSquare::new`. -/
def new (top_left : Vec2) (size : ℚ) : BoundingSquare := ⟨top_left, size⟩

/-- `BoundingSquare::edge_length`. -/
def edge_length (self : BoundingSquare) : ℚ := self.size

/-- `BoundingSquare::as_bounding_box`. -/
def as_bounding_box (self : BoundingSquare) : BoundingBox :=
  BoundingBox.new self.top_left ⟨self.size, self.size⟩

end BoundingSquare

/-! ### src/util.rs -/

/-- The "next" vertex stream `points.iter().cycle().skip(1)` zipped against
`points.iter()`: for the first `points.length` elements of the cycle, this is
the list rotated left by one. -/
def cycleNext (points : List (ℚ × ℚ)) : List (ℚ × ℚ) :=
  points.drop 1 ++ points.take 1

/-- `shoelace_area` (src/util.rs lines 4–12): half the cyclic sum of
`this_x * next_y - next_x * this_y`. -/
def shoelace_area (points : List (ℚ × ℚ)) : ℚ :=
  let double_area :=
    ((points.zip (cycleNext points)).map
      (fun p => p.1.1 * p.2.2 - p.2.1 * p.1.2)).sum
  (1 / 2) * double_area

/-- `centroid` (src/util.rs lines 14–30).  Totally defined, like the source:
the coefficient `1 / (6 * shoelace_area points)` is formed unconditionally
(division by zero yields `0` in `ℚ`, a non-finite float in the source). -/
def centroid (points : List (ℚ × ℚ)) : ℚ × ℚ :=
  let sums :=
    ((points.zip (cycleNext points)).map
      (fun p =>
        let diff := p.1.1 * p.2.2 - p.2.1 * p.1.2
        ((p.1.1 + p.2.1) * diff, (p.1.2 + p.2.2) * diff))).foldl
      (fun acc s => (acc.1 + s.1, acc.2 + s.2)) (0, 0)
  let coefficient := 1 / (6 * shoelace_area points)
  (coefficient * sums.1, coefficient * sums.2)

/-- `max_f64` (src/util.rs lines 32–34): `iter.reduce(|a, b| if a > b then a else b)`. -/
def max_f64 : List ℚ → Option ℚ
  | [] => none
  | x :: xs => some (xs.foldl (fun a b => if a > b then a else b) x)

/-! ### src/svg_path_parser.rs -/

/-- `svg::node::element::path::Position`. -/
inductive Position where
  | Absolute
  | Relative
deriving DecidableEq, Repr

/-- `svg::node::element::path::Command` (the raw drawing commands), with the
numeric parameter list attached as in the source crate. -/
inductive RawCommand where
  | Move (position : Position) (parameters : List ℚ)
  | Line (position : Position) (parameters : List ℚ)
  | HorizontalLine (position : Position) (parameters : List ℚ)
  | VerticalLine (position : Position) (parameters : List ℚ)
  | QuadraticCurve (position : Position) (parameters : List ℚ)
  | SmoothQuadraticCurve (position : Position) (parameters : List ℚ)
  | CubicCurve (position : Position) (parameters : List ℚ)
  | SmoothCubicCurve (position : Position) (parameters : List ℚ)
  | EllipticalArc (position : Position) (parameters : List ℚ)
  | Close
deriving DecidableEq, Repr

/-- `chunks_exact(n)`: successive disjoint chunks of exactly `n` parameters;
a shorter remainder is discarded. -/
def chunksExact (n : ℕ) (l : List ℚ) : List (List ℚ) :=
  if _h : 0 < n ∧ n ≤ l.length then
    l.take n :: chunksExact n (l.drop n)
  else []
termination_by l.length
decreasing_by
  simp only [List.length_drop]
  omega

/-- `Command` from src/svg_path_parser.rs: "First component is the absolute x
destination, second is the absolute y destination." -/
structure Command where
  x : ℚ
  y : ℚ
deriving DecidableEq, Repr

namespace Command

/-- `Command::from_coords_position` (src/svg_path_parser.rs lines 51–67). -/
def from_coords_position (coords : List (ℚ × ℚ)) (position : Position)
    (last_command : Command) : List Command :=
  match position with
  | .Absolute => coords.map (fun c => ⟨c.1, c.2⟩)
  | .Relative =>
    (coords.foldl
      (fun acc c =>
        let command : Command := ⟨acc.2.x + c.1, acc.2.y + c.2⟩
        (acc.1 ++ [command], command))
      (([] : List Command), last_command)).1

/-- `Command::from_raw_command` (src/svg_path_parser.rs lines 10–49).  Note
the Absolute `HorizontalLine` arm pairs each parameter with
`last_command.0` — the x component of the running point — exactly as the
source does. -/
def from_raw_command (raw_command : RawCommand) (last_command : Command) :
    List Command :=
  match raw_command with
  | .Close => []
  | .HorizontalLine position parameters =>
    let chunks := chunksExact 1 parameters
    let coords : List (ℚ × ℚ) :=
      match position with
      | .Absolute => chunks.map (fun chunk => (chunk.headI, last_command.x))
      | .Relative => chunks.map (fun chunk => (chunk.headI, 0))
    from_coords_position coords position last_command
  | .VerticalLine position parameters =>
    let chunks := chunksExact 1 parameters
    let coords : List (ℚ × ℚ) :=
      match position with
      | .Absolute => chunks.map (fun chunk => (last_command.x, chunk.headI))
      | .Relative => chunks.map (fun chunk => (0, chunk.headI))
    from_coords_position coords position last_command
  | .SmoothQuadraticCurve position parameters
  | .Move position parameters
  | .Line position parameters =>
    let coords := (chunksExact 2 parameters).map
      (fun chunk => (chunk.headI, chunk.tail.headI))
    from_coords_position coords position last_command
  | .SmoothCubicCurve position parameters
  | .QuadraticCurve position parameters =>
    let coords := (chunksExact 4 parameters).map
      (fun chunk => (chunk.getD 2 0, chunk.getD 3 0))
    from_coords_position coords position last_command
  | .CubicCurve position parameters =>
    let coords := (chunksExact 6 parameters).map
      (fun chunk => (chunk.getD 4 0, chunk.getD 5 0))
    from_coords_position coords position last_command
  | .EllipticalArc position parameters =>
    let coords := (chunksExact 7 parameters).map
      (fun chunk => (chunk.getD 5 0, chunk.getD 6 0))
    from_coords_position coords position last_command

end Command

/-- `impl From<&path::Data> for Path` (src/svg_path_parser.rs lines 75–97):
fold over the raw commands, threading the running last point and
concatenating the emitted points. -/
def pathFromData (raw_commands : List RawCommand) : List Command :=
  (raw_commands.foldl
    (fun acc raw_command =>
      let command := Command.from_raw_command raw_command acc.2
      match command.getLast? with
      | some new_last_command => (acc.1 ++ command, new_last_command)
      | none => acc)
    (([] : List Command), (⟨0, 0⟩ : Command))).1

/-! ### `impl From<&Data> for BoundingBox` (src/bounding_box.rs lines 45–75) -/

/-- The numeric value of `f32::MAX` as an exact rational. -/
def f32MAX : ℚ := 340282346638528859811704183484516925440

/-- The numeric value of `f32::MIN` as an exact rational. -/
def f32MIN : ℚ := -f32MAX

/-- One iteration of the extreme-scanning loop in `BoundingBox::from(&Data)`:
the state is `(min_x, max_x, min_y, max_y)` and each comparison is the
strict one the source performs. -/
def minmaxStep (st : ℚ × ℚ × ℚ × ℚ) (c : Command) : ℚ × ℚ × ℚ × ℚ :=
  let st := if c.x < st.1 then (c.x, st.2.1, st.2.2.1, st.2.2.2) else st
  let st := if c.x > st.2.1 then (st.1, c.x, st.2.2.1, st.2.2.2) else st
  let st := if c.y < st.2.2.1 then (st.1, st.2.1, c.y, st.2.2.2) else st
  if c.y > st.2.2.2 then (st.1, st.2.1, st.2.2.1, c.y) else st

/-- `BoundingBox::from(&Data)`: scan the interpreted path for coordinate
extremes, starting from `(f32::MAX, f32::MIN, f32::MAX, f32::MIN)`; an empty
path leaves the initial extremes in place, making the size negative. -/
def boundingBoxFromData (data : List RawCommand) : BoundingBox :=
  let path := pathFromData data
  let st := path.foldl minmaxStep (f32MAX, f32MIN, f32MAX, f32MIN)
  let top_left : Vec2 := ⟨st.1, st.2.2.1⟩
  let bottom_right : Vec2 := ⟨st.2.1, st.2.2.2⟩
  BoundingBox.new top_left (bottom_right - top_left)

/-! ### src/bin/svg_splitter/tile.rs and tile_iterator.rs -/

/-- `TileCoords`: `location[0]` is the column, `location[1]` the row. -/
structure TileCoords where
  col : ℕ
  row : ℕ
  zoom : ℕ
deriving DecidableEq, Repr

/-- `TileCoords::new`. -/
def TileCoords.new (col row zoom : ℕ) : TileCoords := ⟨col, row, zoom⟩

/-- `TileIterator` state: the coords to yield next (None once exhausted). -/
structure TileIterator where
  coords : Option TileCoords
  max_zoom_level : ℕ
deriving DecidableEq, Repr

namespace TileIterator

/-- `TileIterator::new(min_zoom_level, max_zoom_level)`. -/
def new (min_zoom_level max_zoom_level : ℕ) : TileIterator :=
  ⟨some (TileCoords.new 0 0 min_zoom_level), max_zoom_level⟩

/-- `TileIterator::max_coords_for_zoom_level`. -/
def max_coords_for_zoom_level (zoom_level : ℕ) : ℕ := 2 ^ zoom_level - 1

/-- `TileIterator::next` (src/bin/svg_splitter/tile_iterator.rs lines 26–49):
returns the current coords and the advanced iterator. -/
def next (self : TileIterator) : Option TileCoords × TileIterator :=
  match self.coords with
  | none => (none, self)
  | some c =>
    let max_coords := max_coords_for_zoom_level c.zoom
    if c.col < max_coords then
      (some c, ⟨some ⟨c.col + 1, c.row, c.zoom⟩, self.max_zoom_level⟩)
    else if c.row < max_coords then
      (some c, ⟨some ⟨0, c.row + 1, c.zoom⟩, self.max_zoom_level⟩)
    else if c.zoom < self.max_zoom_level then
      (some c, ⟨some ⟨0, 0, c.zoom + 1⟩, self.max_zoom_level⟩)
    else
      (some c, ⟨none, self.max_zoom_level⟩)

/-- Drain the iterator, fuel-bounded: the list of coords yielded in order. -/
def run : ℕ → TileIterator → List TileCoords
  | 0, _ => []
  | fuel + 1, it =>
    match it.next with
    | (none, _) => []
    | (some c, it') => c :: run fuel it'

end TileIterator

/-- One row of tiles at a zoom level, columns in increasing order. -/
def rowTiles (z row : ℕ) : List TileCoords :=
  (List.range (2 ^ z)).map (fun col => ⟨col, row, z⟩)

/-- All tiles of one zoom level in row-major order, column fastest. -/
def tilesAtZoom (z : ℕ) : List TileCoords :=
  (List.range (2 ^ z)).flatMap (rowTiles z)

/-- The row-major enumeration the spec prescribes for a zoom range:
column fastest, then row, then zoom. -/
def canonicalTiles (minZ maxZ : ℕ) : List TileCoords :=
  (List.range' minZ (maxZ + 1 - minZ)).flatMap tilesAtZoom

/-- The tail of the canonical enumeration starting at column `c` of row `r`
of zoom `z`: the rest of that row, the remaining rows of that zoom, then the
remaining zoom levels up to `maxZ`. -/
def tilesFrom (c r z maxZ : ℕ) : List TileCoords :=
  ((List.range' c (2 ^ z - c)).map (fun col => ⟨col, r, z⟩))
    ++ ((List.range' (r + 1) (2 ^ z - (r + 1))).flatMap (rowTiles z))
    ++ ((List.range' (z + 1) (maxZ - z)).flatMap tilesAtZoom)

/-! ### src/bin/svg_splitter/layer.rs -/

/-- `Layer::bounds_for_tile_coords` (lines 21–27), with the layer's root
square passed explicitly: edge length is the root edge divided by `2^zoom`,
and the top-left is that edge length times the (column, row) location — the
root square's own top-left is not added. -/
def bounds_for_tile_coords (bounds : BoundingSquare) (coords : TileCoords) : BoundingSquare :=
  let edge_length := bounds.edge_length * (1 / (2 ^ coords.zoom : ℚ))
  let top_left := Vec2.smul edge_length ⟨(coords.col : ℚ), (coords.row : ℚ)⟩
  BoundingSquare.new top_left edge_length

/-! ### src/svg_parser.rs — scene tree, selection, builder -/

/-- Row-major 3×3 rational matrix, modelling `nalgebra::Matrix3<f64>`. -/
structure Matrix3 where
  m11 : ℚ
  m12 : ℚ
  m13 : ℚ
  m21 : ℚ
  m22 : ℚ
  m23 : ℚ
  m31 : ℚ
  m32 : ℚ
  m33 : ℚ
deriving DecidableEq, Repr

/-- Homogeneous 3-vector. -/
structure Vec3 where
  x : ℚ
  y : ℚ
  z : ℚ
deriving DecidableEq, Repr

/-- Matrix multiplication (transform composition `cumulative * parsed`). -/
def Matrix3.mul (a b : Matrix3) : Matrix3 :=
  ⟨a.m11 * b.m11 + a.m12 * b.m21 + a.m13 * b.m31,
   a.m11 * b.m12 + a.m12 * b.m22 + a.m13 * b.m32,
   a.m11 * b.m13 + a.m12 * b.m23 + a.m13 * b.m33,
   a.m21 * b.m11 + a.m22 * b.m21 + a.m23 * b.m31,
   a.m21 * b.m12 + a.m22 * b.m22 + a.m23 * b.m32,
   a.m21 * b.m13 + a.m22 * b.m23 + a.m23 * b.m33,
   a.m31 * b.m11 + a.m32 * b.m21 + a.m33 * b.m31,
   a.m31 * b.m12 + a.m32 * b.m22 + a.m33 * b.m32,
   a.m31 * b.m13 + a.m32 * b.m23 + a.m33 * b.m33⟩

/-- Matrix applied to a homogeneous vector. -/
def Matrix3.mulVec (a : Matrix3) (v : Vec3) : Vec3 :=
  ⟨a.m11 * v.x + a.m12 * v.y + a.m13 * v.z,
   a.m21 * v.x + a.m22 * v.y + a.m23 * v.z,
   a.m31 * v.x + a.m32 * v.y + a.m33 * v.z⟩

/-- The identity matrix used by `from_svg_data` as the initial transform. -/
def Matrix3.identity : Matrix3 := ⟨1, 0, 0, 0, 1, 0, 0, 0, 1⟩

/-- The attribute view `parse_tag` consumes, already tokenized: `d` as parsed
path data (`Data::parse`), `width`/`height`/`x`/`y` as the optional numbers
`num_from_attr` yields (absent attribute ↦ `none`), and `transform` as the
matrix `parse_transform` yields.  The string-level parsing itself carries no
algorithmic content relevant to the claims. -/
structure Attributes where
  d : Option (List RawCommand)
  width : Option ℚ
  height : Option ℚ
  x : Option ℚ
  y : Option ℚ
  transform : Option Matrix3
deriving DecidableEq, Repr

/-- The attribute view of an element carrying none of the recognized
attributes. -/
def Attributes.none' : Attributes := ⟨none, none, none, none, none, none⟩

/-- `SvgElement` (src/svg_parser.rs lines 19–25). -/
inductive SvgElement where
  | mk (bounding_box : BoundingBox) (children : List SvgElement)
      (tag_name : String) (attributes : Attributes)
deriving Repr

namespace SvgElement

/-- Field accessor for `bounding_box`. -/
def bounding_box : SvgElement → BoundingBox
  | .mk b _ _ _ => b

/-- Field accessor for `children`. -/
def children : SvgElement → List SvgElement
  | .mk _ c _ _ => c

/-- Field accessor for `tag_name`. -/
def tag_name : SvgElement → String
  | .mk _ _ t _ => t

/-- Field accessor for `attributes`. -/
def attributes : SvgElement → Attributes
  | .mk _ _ _ a => a

/-- `SvgElement::get_bottom_right`. -/
def get_bottom_right (self : SvgElement) : Vec2 :=
  self.bounding_box.get_bottom_right

/-- `SvgElement::empty_root`. -/
def empty_root (bounding_box : BoundingBox) : SvgElement :=
  .mk bounding_box [] "svg" Attributes.none'

mutual

/-- `SvgElement::select_with` (src/svg_parser.rs lines 70–86). -/
def select_with (self : SvgElement) (bounding_box : BoundingBox) :
    Option SvgElement :=
  match self with
  | .mk box children tag attrs =>
    if box.intersects bounding_box then
      some (.mk box (select_children children bounding_box) tag attrs)
    else
      none

/-- The `children.iter().filter_map(|child| child.select_with(..)).collect()`
step of `select_with`, written as the recursion `filter_map` performs. -/
def select_children (children : List SvgElement) (bounding_box : BoundingBox) :
    List SvgElement :=
  match children with
  | [] => []
  | c :: cs =>
    match select_with c bounding_box with
    | some r => r :: select_children cs bounding_box
    | none => select_children cs bounding_box

end

end SvgElement

/-- A markup element as `parse_event`/`parse_children` deliver it to
`parse_tag`: either self-closing (`Type::Empty`) or open-with-body
(`Type::Start`) with its child elements; ignorable events (text, comments,
declarations, instructions) are already skipped, and the matching close tag
is implicit in the tree shape.  A stray close tag (`Type::End`) aborts
parsing in the source and corresponds to no tree. -/
inductive SvgTag where
  | empty (name : String) (attributes : Attributes)
  | start (name : String) (attributes : Attributes) (children : List SvgTag)
deriving Repr

/-- The intrinsic `(size, local top-left)` computation at the head of
`parse_tag`: the `path` branch takes both from the path-data bounding box;
every other tag (`"rect" | _`) reads `width`/`height`/`x`/`y`, each
defaulting to 0 when absent. -/
def intrinsic (name : String) (attributes : Attributes) :
    Option (Vec2 × Vec3) :=
  if name = "path" then
    match attributes.d with
    | none => none
    | some d =>
      let bounds := boundingBoxFromData d
      let top_left := bounds.get_top_left
      some (bounds.get_size, ⟨top_left.x, top_left.y, 1⟩)
  else
    let min_width := attributes.width.getD 0
    let min_height := attributes.height.getD 0
    let x := attributes.x.getD 0
    let y := attributes.y.getD 0
    some (⟨min_width, min_height⟩, ⟨x, y, 1⟩)

/-- The transform handling of `parse_tag` (src/svg_parser.rs lines 240–245):
compose `cumulative * parsed` when a `transform` attribute is present,
otherwise keep the cumulative matrix. -/
def effective_ctm (current_transformation_matrix : Matrix3)
    (attributes : Attributes) : Matrix3 :=
  match attributes.transform with
  | some t => current_transformation_matrix.mul t
  | none => current_transformation_matrix

/-- The `map_or(edge, |child_max| child_max.max(edge))` combination used for
the container's right and bottom edges. -/
def max_or (o : Option ℚ) (edge : ℚ) : ℚ :=
  match o with
  | none => edge
  | some child_max => max child_max edge

mutual

/-- `SvgElement::parse_tag` (src/svg_parser.rs lines 209–294) over a
tree-shaped event stream.  Returns `none` where the source returns an error
(a `path` element without path data). -/
def parse_tag (current_transformation_matrix : Matrix3) : SvgTag → Option SvgElement
  | .empty name attributes =>
    match intrinsic name attributes with
    | none => none
    | some (size, local_top_left_homogenous) =>
      let ctm := effective_ctm current_transformation_matrix attributes
      let g := ctm.mulVec local_top_left_homogenous
      let global_top_left : Vec2 := ⟨g.x, g.y⟩
      some (.mk (BoundingBox.new global_top_left size) [] name attributes)
  | .start name attributes child_tags =>
    match intrinsic name attributes with
    | none => none
    | some (size, local_top_left_homogenous) =>
      let ctm := effective_ctm current_transformation_matrix attributes
      let g := ctm.mulVec local_top_left_homogenous
      let global_top_left : Vec2 := ⟨g.x, g.y⟩
      let bottom_right := global_top_left + size
      match parse_children ctm child_tags with
      | none => none
      | some children =>
        let rights := children.map (fun child => child.get_bottom_right.x)
        let bottoms := children.map (fun child => child.get_bottom_right.y)
        let max_right := max_or (max_f64 rights) bottom_right.x
        let max_bottom := max_or (max_f64 bottoms) bottom_right.y
        let actual_bottom_right : Vec2 := ⟨max_right, max_bottom⟩
        let actual_size := actual_bottom_right - global_top_left
        some (.mk (BoundingBox.new global_top_left actual_size) children
          name attributes)

/-- `SvgElement::parse_children` over the tree-shaped stream: build every
child, propagating failure. -/
def parse_children (current_transformation_matrix : Matrix3) :
    List SvgTag → Option (List SvgElement)
  | [] => some []
  | t :: ts =>
    match parse_tag current_transformation_matrix t with
    | none => none
    | some e =>
      match parse_children current_transformation_matrix ts with
      | none => none
      | some es => some (e :: es)

end

/-- Strict-descendant relation on scene-tree nodes: `Descendant d n` holds
when `d` is a child of `n` or a descendant of a child. -/
inductive Descendant : SvgElement → SvgElement → Prop
  | child {d n : SvgElement} : d ∈ n.children → Descendant d n
  | step {d c n : SvgElement} : c ∈ n.children → Descendant d c → Descendant d n

/-- An element is `Built` when some `parse_tag` call produces it. -/
def Built (e : SvgElement) : Prop :=
  ∃ (ctm : Matrix3) (t : SvgTag), parse_tag ctm t = some e

/-! ### Concrete inputs used by counterexamples and witnesses -/

/-- Attribute view of a rectangle-like element with the four numeric
attributes set and no `d`/`transform`. -/
def rectAttrs (x y w h : ℚ) : Attributes := ⟨none, some w, some h, some x, some y, none⟩

/-- A container whose own intrinsic rectangle sits at the origin with size
2×2, holding one self-closing child at x = −5. -/
def tagCE : SvgTag :=
  .start "g" (rectAttrs 0 0 2 2) [.empty "rect" (rectAttrs (-5) 0 1 1)]

/-- The element `parse_tag` builds for the child of `tagCE`. -/
def childCE : SvgElement := .mk ⟨⟨-5, 0⟩, ⟨1, 1⟩⟩ [] "rect" (rectAttrs (-5) 0 1 1)

/-- The element `parse_tag` builds for `tagCE`. -/
def rootCE : SvgElement := .mk ⟨⟨0, 0⟩, ⟨2, 2⟩⟩ [childCE] "g" (rectAttrs 0 0 2 2)

/-- Query box used by the selection witnesses. -/
def qW : BoundingBox := ⟨⟨0, 0⟩, ⟨1, 1⟩⟩

/-- A leaf whose box intersects `qW`. -/
def leafIn : SvgElement := .mk ⟨⟨0, 0⟩, ⟨1, 1⟩⟩ [] "rect" Attributes.none'

/-- A leaf whose box is strictly separated from `qW`. -/
def leafOut : SvgElement := .mk ⟨⟨10, 10⟩, ⟨1, 1⟩⟩ [] "rect" Attributes.none'

/-- A container holding `leafIn` and `leafOut`, intersecting `qW`. -/
def nodeW : SvgElement := .mk ⟨⟨0, 0⟩, ⟨2, 2⟩⟩ [leafIn, leafOut] "g" Attributes.none'

/-- The selection of `nodeW` by `qW`: `leafOut` is pruned. -/
def selW : SvgElement := .mk ⟨⟨0, 0⟩, ⟨2, 2⟩⟩ [leafIn] "g" Attributes.none'

/-! ## Theorems settling the claims -/

/-- Unfolding lemma for vector addition. -/
theorem Vec2.add_def (a b : Vec2) : a + b = ⟨a.x + b.x, a.y + b.y⟩ := rfl

/-- Unfolding lemma for vector subtraction. -/
theorem Vec2.sub_def (a b : Vec2) : a - b = ⟨a.x - b.x, a.y - b.y⟩ := rfl

/-- C5, counterexample: on the vertex list (0,0),(0,2),(2,2),(2,0) the pair
of results the claim asserts — centroid (1,1) and `shoelace_area` equal to 4
— does not hold, because `shoelace_area` returns the signed value −4 for
this (clockwise under the shoelace sign convention) ordering. -/
theorem shoelace_square_claim_fails :
    ¬(centroid [(0, 0), (0, 2), (2, 2), (2, 0)] = (1, 1) ∧
      shoelace_area [(0, 0), (0, 2), (2, 2), (2, 0)] = 4) := by
  intro h
  have := h.2
  norm_num [shoelace_area, cycleNext] at this

/-- C5, amended: for the vertex list (0,0),(0,2),(2,2),(2,0), `centroid`
returns (1,1) and `shoelace_area` returns the signed area −4 (magnitude 4). -/
theorem centroid_shoelace_square :
    centroid [(0, 0), (0, 2), (2, 2), (2, 0)] = (1, 1) ∧
    shoelace_area [(0, 0), (0, 2), (2, 2), (2, 0)] = -4 := by
  constructor <;> norm_num [centroid, shoelace_area, cycleNext]

/-- C6, counterexample: on the collinear list (0,0),(1,1),(2,2) the signed
area is 0, yet `centroid` does not fail — it has no error channel at all and
returns the division-by-zero junk value (here the rational-model value
(0,0); non-finite components in the source's `f32`). -/
theorem centroid_degenerate_returns_value :
    shoelace_area [(0, 0), (1, 1), (2, 2)] = 0 ∧
    centroid [(0, 0), (1, 1), (2, 2)] = (0, 0) := by
  constructor <;> norm_num [centroid, shoelace_area, cycleNext]

/-- C6, amended: `centroid` performs no degenerate-polygon guard: it is a
total function, and on every input of zero signed area it still forms the
coefficient `1 / (6 * 0)` and returns a value (in the rational model the
junk value (0,0); in the source's `f32`, non-finite components), rather than
a typed error. -/
theorem centroid_degenerate_no_guard :
    ∀ points : List (ℚ × ℚ), shoelace_area points = 0 → centroid points = (0, 0) := by
  intro points h
  simp [centroid, h]

/-- C6, witness for the amended theorem at the collinear triple. -/
theorem centroid_degenerate_no_guard_witness :
    shoelace_area [(0, 0), (1, 1), (2, 2)] = 0 ∧
    centroid [(0, 0), (1, 1), (2, 2)] = (0, 0) :=
  ⟨by norm_num [shoelace_area, cycleNext],
   centroid_degenerate_no_guard _ (by norm_num [shoelace_area, cycleNext])⟩

/-- C2, code bug: `bounds_for_tile_coords` drops the root square's top-left.
For the root square with top-left (5,0) and edge 100 (exactly what
`svg_splitter -x 5 -s 100` documents as "the top left of the zoom level 0
tile"), the zoom-0 tile comes back with top-left (0,0) and not the
documented/specified `P + (L / 2^z) · (c, r) = (5,0)`. -/
theorem bounds_for_tile_coords_drops_root_top_left :
    bounds_for_tile_coords (BoundingSquare.new ⟨5, 0⟩ 100) (TileCoords.new 0 0 0) =
      BoundingSquare.new ⟨0, 0⟩ 100 ∧
    (⟨5, 0⟩ : Vec2) + Vec2.smul (100 * (1 / 2 ^ (0 : ℕ))) ⟨0, 0⟩ = ⟨5, 0⟩ := by
  constructor
  · norm_num [bounds_for_tile_coords, BoundingSquare.new, BoundingSquare.edge_length,
      TileCoords.new, Vec2.smul]
  · norm_num [Vec2.smul, Vec2.add_def]

/-- C3, code bug: interpreting an Absolute `HorizontalLine` with parameter
10 from the running point (3,7) yields (10,3) — the y coordinate is copied
from the running point's x component (`last_command.0`), not its y as the
spec (and SVG semantics, and the symmetric `VerticalLine` arm, which
correctly yields (3,10)) prescribe. -/
theorem horizontal_line_absolute_copies_x_into_y :
    Command.from_raw_command (.HorizontalLine .Absolute [10]) ⟨3, 7⟩ = [⟨10, 3⟩] ∧
    Command.from_raw_command (.VerticalLine .Absolute [10]) ⟨3, 7⟩ = [⟨3, 10⟩] := by
  constructor <;>
    simp [Command.from_raw_command, Command.from_coords_position, chunksExact]

/-- C10, counterexample: on path data with no drawing commands, the
`From<&Data>` constructor leaves the initial extremes in place and produces
a bounding box of size `f32::MIN − f32::MAX` on both axes — strictly
negative, violating the nonnegative-size invariant. -/
theorem boundingBox_from_empty_data_negative_size :
    (boundingBoxFromData []).size = ⟨f32MIN - f32MAX, f32MIN - f32MAX⟩ ∧
    (boundingBoxFromData []).size.x < 0 ∧ (boundingBoxFromData []).size.y < 0 := by
  have h : (boundingBoxFromData []).size = ⟨f32MIN - f32MAX, f32MIN - f32MAX⟩ := rfl
  refine ⟨h, ?_, ?_⟩ <;> rw [h] <;> norm_num [f32MIN, f32MAX]

/-- C7: `intersects` is symmetric, and it returns `false` exactly when the
boxes are strictly separated along some axis; since the separation tests are
strict, boxes whose edges merely touch count as intersecting. -/
theorem intersects_symm_open_exclusion :
    ∀ a b : BoundingBox,
    0 ≤ a.size.x → 0 ≤ a.size.y → 0 ≤ b.size.x → 0 ≤ b.size.y →
    (a.intersects b = b.intersects a) ∧
    (a.intersects b = false ↔
      (a.top_left.x + a.size.x < b.top_left.x ∨
       b.top_left.x + b.size.x < a.top_left.x ∨
       a.top_left.y + a.size.y < b.top_left.y ∨
       b.top_left.y + b.size.y < a.top_left.y)) := by
  intro a b _ _ _ _
  constructor
  · simp only [BoundingBox.intersects]
    rw [Bool.eq_iff_iff]
    simp only [Bool.not_eq_true', Bool.or_eq_false_iff, decide_eq_false_iff_not]
    tauto
  · simp only [BoundingBox.intersects, Bool.not_eq_false', Bool.or_eq_true,
      decide_eq_true_eq]
    tauto

/-- C7 witness, at two unit boxes touching along a vertical edge (which
therefore count as intersecting). -/
theorem intersects_symm_open_exclusion_witness :
    (0 ≤ (BoundingBox.new ⟨0, 0⟩ ⟨1, 1⟩).size.x ∧
     0 ≤ (BoundingBox.new ⟨0, 0⟩ ⟨1, 1⟩).size.y ∧
     0 ≤ (BoundingBox.new ⟨1, 0⟩ ⟨1, 1⟩).size.x ∧
     0 ≤ (BoundingBox.new ⟨1, 0⟩ ⟨1, 1⟩).size.y) ∧
    ((BoundingBox.new ⟨0, 0⟩ ⟨1, 1⟩).intersects (BoundingBox.new ⟨1, 0⟩ ⟨1, 1⟩) =
      (BoundingBox.new ⟨1, 0⟩ ⟨1, 1⟩).intersects (BoundingBox.new ⟨0, 0⟩ ⟨1, 1⟩) ∧
     ((BoundingBox.new ⟨0, 0⟩ ⟨1, 1⟩).intersects (BoundingBox.new ⟨1, 0⟩ ⟨1, 1⟩) = false ↔
      ((BoundingBox.new ⟨0, 0⟩ ⟨1, 1⟩).top_left.x + (BoundingBox.new ⟨0, 0⟩ ⟨1, 1⟩).size.x <
         (BoundingBox.new ⟨1, 0⟩ ⟨1, 1⟩).top_left.x ∨
       (BoundingBox.new ⟨1, 0⟩ ⟨1, 1⟩).top_left.x + (BoundingBox.new ⟨1, 0⟩ ⟨1, 1⟩).size.x <
         (BoundingBox.new ⟨0, 0⟩ ⟨1, 1⟩).top_left.x ∨
       (BoundingBox.new ⟨0, 0⟩ ⟨1, 1⟩).top_left.y + (BoundingBox.new ⟨0, 0⟩ ⟨1, 1⟩).size.y <
         (BoundingBox.new ⟨1, 0⟩ ⟨1, 1⟩).top_left.y ∨
       (BoundingBox.new ⟨1, 0⟩ ⟨1, 1⟩).top_left.y + (BoundingBox.new ⟨1, 0⟩ ⟨1, 1⟩).size.y <
         (BoundingBox.new ⟨0, 0⟩ ⟨1, 1⟩).top_left.y))) :=
  ⟨⟨by norm_num [BoundingBox.new], by norm_num [BoundingBox.new],
    by norm_num [BoundingBox.new], by norm_num [BoundingBox.new]⟩,
   intersects_symm_open_exclusion _ _ (by norm_num [BoundingBox.new])
     (by norm_num [BoundingBox.new]) (by norm_num [BoundingBox.new])
     (by norm_num [BoundingBox.new])⟩

/-- `select_children` computes `filterMap` of `select_with` over the list. -/
theorem select_children_eq_filterMap :
    ∀ (children : List SvgElement) (q : BoundingBox),
    SvgElement.select_children children q =
      children.filterMap (fun c => c.select_with q) := by
  intro children q
  induction children with
  | nil => rw [SvgElement.select_children]; simp
  | cons c cs ih =>
    rw [SvgElement.select_children]
    cases h : c.select_with q <;> simp [h, ih]

/-- C8: `select_with` returns `none` exactly when the node's box misses the
query; otherwise it returns a node with the same tag, attributes and box,
whose children are the non-`none` recursive selections of the original
children in order — in particular the node survives with zero children when
its own box intersects but no child's selection does. -/
theorem select_with_characterization :
    ∀ (n : SvgElement) (q : BoundingBox),
    (n.select_with q = none ↔ n.bounding_box.intersects q = false) ∧
    (∀ r, n.select_with q = some r →
      r.tag_name = n.tag_name ∧ r.attributes = n.attributes ∧
      r.bounding_box = n.bounding_box ∧
      r.children = n.children.filterMap (fun c => c.select_with q)) := by
  intro n q
  obtain ⟨box, children, tag, attrs⟩ := n
  rw [SvgElement.select_with]
  cases hbox : box.intersects q
  · simp [hbox, SvgElement.bounding_box]
  · refine ⟨by simp [hbox, SvgElement.bounding_box], ?_⟩
    intro r hr
    simp only [hbox, if_true, Option.some.injEq] at hr
    subst hr
    exact ⟨rfl, rfl, rfl, select_children_eq_filterMap children q⟩

/-- C8 witness: the characterization applied to the concrete container
`nodeW` and query `qW`, from which `leafOut` is pruned. -/
theorem select_with_characterization_witness :
    selW.tag_name = nodeW.tag_name ∧ selW.attributes = nodeW.attributes ∧
    selW.bounding_box = nodeW.bounding_box ∧
    selW.children = nodeW.children.filterMap (fun c => c.select_with qW) :=
  (select_with_characterization nodeW qW).2 selW
    (by simp [nodeW, selW, leafIn, leafOut, qW, SvgElement.select_with,
      SvgElement.select_children, BoundingBox.intersects])

/-- A member of a child list weighs less than the element holding it. -/
theorem sizeOf_child_lt {c : SvgElement} {box : BoundingBox}
    {children : List SvgElement} {tag : String} {attrs : Attributes}
    (h : c ∈ children) :
    sizeOf c < sizeOf (SvgElement.mk box children tag attrs) := by
  have := List.sizeOf_lt_of_mem h
  simp only [SvgElement.mk.sizeOf_spec]
  omega

/-- A list whose members are all fixed points of `f` is unchanged by
`filterMap f`. -/
theorem filterMap_of_fixed {α : Type} (f : α → Option α) :
    ∀ l : List α, (∀ x ∈ l, f x = some x) → l.filterMap f = l := by
  intro l
  induction l with
  | nil => simp
  | cons c cs ih =>
    intro h
    have hc := h c (List.mem_cons_self c cs)
    simp [List.filterMap_cons, hc, ih (fun x hx => h x (by simp [hx]))]

/-- Bounded-size version of the idempotence of selection. -/
theorem select_with_idem_aux :
    ∀ (n : ℕ) (t : SvgElement), sizeOf t ≤ n →
    ∀ (q : BoundingBox) (r : SvgElement),
    t.select_with q = some r → r.select_with q = some r := by
  intro n
  induction n with
  | zero =>
    intro t ht
    obtain ⟨box, children, tag, attrs⟩ := t
    simp only [SvgElement.mk.sizeOf_spec] at ht
    omega
  | succ n ih =>
    intro t ht q r hsel
    obtain ⟨box, children, tag, attrs⟩ := t
    rw [SvgElement.select_with] at hsel
    cases hbox : box.intersects q
    · simp [hbox] at hsel
    · simp only [hbox, if_true, Option.some.injEq] at hsel
      subst hsel
      rw [SvgElement.select_with]
      simp only [hbox, if_true, Option.some.injEq, SvgElement.mk.injEq,
        true_and, and_true]
      simp only [select_children_eq_filterMap]
      apply filterMap_of_fixed
      intro x hx
      rw [List.mem_filterMap] at hx
      obtain ⟨c, hc, hcx⟩ := hx
      have hlt := @sizeOf_child_lt c box children tag attrs hc
      simp only [SvgElement.mk.sizeOf_spec] at hlt ht
      exact ih c (by omega) q x hcx

/-- C9: selection is idempotent — whenever `select_with t q` returns a node
`r`, selecting `r` with the same query returns `r` again. -/
theorem select_with_idempotent :
    ∀ (t : SvgElement) (q : BoundingBox) (r : SvgElement),
    t.select_with q = some r → r.select_with q = some r :=
  fun t q r h => select_with_idem_aux (sizeOf t) t le_rfl q r h

/-- C9 witness: idempotence applied at the concrete selection of `nodeW`. -/
theorem select_with_idempotent_witness :
    SvgElement.select_with selW qW = some selW :=
  select_with_idempotent nodeW qW selW
    (by simp [nodeW, selW, leafIn, leafOut, qW, SvgElement.select_with,
      SvgElement.select_children, BoundingBox.intersects])

/-- Elements produced by `parse_children` come from `parse_tag` applied to a
member of the tag list, under the same cumulative matrix. -/
theorem parse_children_mem :
    ∀ (ctm : Matrix3) (ts : List SvgTag) (es : List SvgElement),
    parse_children ctm ts = some es →
    ∀ e ∈ es, ∃ t ∈ ts, parse_tag ctm t = some e := by
  intro ctm ts
  induction ts with
  | nil =>
    intro es h
    rw [parse_children] at h
    simp only [Option.some.injEq] at h
    subst h
    simp
  | cons t ts ih =>
    intro es h
    rw [parse_children] at h
    cases h1 : parse_tag ctm t
    · simp only [h1] at h
      exact Option.noConfusion h
    · simp only [h1] at h
      cases h2 : parse_children ctm ts
      · simp only [h2] at h
        exact Option.noConfusion h
      · simp only [h2, Option.some.injEq] at h
        subst h
        intro e he
        rcases List.mem_cons.mp he with rfl | hmem
        · exact ⟨t, List.mem_cons_self t ts, h1⟩
        · obtain ⟨t', ht', he'⟩ := ih _ h2 e hmem
          exact ⟨t', List.mem_cons_of_mem t ht', he'⟩

/-- The fold inside `max_f64` dominates its seed and every list element. -/
theorem foldl_max_ge :
    ∀ (xs : List ℚ) (a x : ℚ), (x = a ∨ x ∈ xs) →
    x ≤ xs.foldl (fun a b => if a > b then a else b) a := by
  intro xs
  induction xs with
  | nil =>
    intro a x hx
    rcases hx with rfl | h
    · exact le_refl x
    · simp at h
  | cons b bs ih =>
    intro a x hx
    simp only [List.foldl_cons]
    have hstep : a ≤ (if a > b then a else b) ∧ b ≤ (if a > b then a else b) := by
      split_ifs with h
      · exact ⟨le_refl a, le_of_lt h⟩
      · exact ⟨le_of_not_lt h, le_refl b⟩
    rcases hx with heq | hmem
    · rw [heq]
      exact le_trans hstep.1 (ih _ _ (Or.inl rfl))
    · rcases List.mem_cons.mp hmem with heq' | hmem'
      · rw [heq']
        exact le_trans hstep.2 (ih _ _ (Or.inl rfl))
      · exact ih _ x (Or.inr hmem')

/-- Every member of a list is bounded by the `map_or`-combined maximum the
container computation uses. -/
theorem le_max_or_max_f64 :
    ∀ (l : List ℚ) (edge x : ℚ), x ∈ l → x ≤ max_or (max_f64 l) edge := by
  intro l edge x hx
  cases l with
  | nil => simp at hx
  | cons a xs =>
    rw [max_f64, max_or]
    refine le_trans ?_ (le_max_left _ _)
    rcases List.mem_cons.mp hx with heq | hmem
    · rw [heq]
      exact foldl_max_ge xs a a (Or.inl rfl)
    · exact foldl_max_ge xs a x (Or.inr hmem)

/-- Children of a built element are themselves built, and their bottom-right
corners are dominated by the parent's bottom-right corner. -/
theorem parse_tag_child_facts :
    ∀ (ctm : Matrix3) (t : SvgTag) (e : SvgElement), parse_tag ctm t = some e →
    ∀ c ∈ e.children,
      Built c ∧ c.get_bottom_right.x ≤ e.get_bottom_right.x ∧
        c.get_bottom_right.y ≤ e.get_bottom_right.y := by
  intro ctm t e ht c hc
  cases t with
  | empty name attrs =>
    rw [parse_tag] at ht
    cases hint : intrinsic name attrs with
    | none =>
      simp only [hint] at ht
      exact Option.noConfusion ht
    | some p =>
      obtain ⟨size, tl⟩ := p
      simp only [hint, Option.some.injEq] at ht
      subst ht
      simp [SvgElement.children] at hc
  | start name attrs cts =>
    rw [parse_tag] at ht
    cases hint : intrinsic name attrs with
    | none =>
      simp only [hint] at ht
      exact Option.noConfusion ht
    | some p =>
      obtain ⟨size, tl⟩ := p
      simp only [hint] at ht
      cases hch : parse_children (effective_ctm ctm attrs) cts with
      | none =>
        simp only [hch] at ht
        exact Option.noConfusion ht
      | some children =>
        simp only [hch, Option.some.injEq] at ht
        subst ht
        simp only [SvgElement.children] at hc
        constructor
        · obtain ⟨t', _, he'⟩ := parse_children_mem _ _ _ hch c hc
          exact ⟨effective_ctm ctm attrs, t', he'⟩
        · have hx : c.get_bottom_right.x ∈
              children.map (fun child => child.get_bottom_right.x) :=
            List.mem_map_of_mem _ hc
          have hy : c.get_bottom_right.y ∈
              children.map (fun child => child.get_bottom_right.y) :=
            List.mem_map_of_mem _ hc
          have hcancel : ∀ u v : ℚ, u + (v - u) = v := fun u v => by ring
          constructor <;>
            simp only [SvgElement.get_bottom_right, SvgElement.bounding_box,
              BoundingBox.get_bottom_right, BoundingBox.new, Vec2.add_def,
              Vec2.sub_def] <;>
            rw [hcancel]
          · exact le_max_or_max_f64 _ _ _ hx
          · exact le_max_or_max_f64 _ _ _ hy

/-- Descendants of a built element have bottom-right corners dominated by
the element's bottom-right corner. -/
theorem built_descendant_bound :
    ∀ (d n : SvgElement), Descendant d n → Built n →
    d.get_bottom_right.x ≤ n.get_bottom_right.x ∧
      d.get_bottom_right.y ≤ n.get_bottom_right.y := by
  intro d n hdesc
  induction hdesc with
  | child hm =>
    intro hb
    obtain ⟨ctm, t, ht⟩ := hb
    exact (parse_tag_child_facts ctm t _ ht _ hm).2
  | step hm _ ih =>
    intro hb
    obtain ⟨ctm, t, ht⟩ := hb
    have hc := parse_tag_child_facts ctm t _ ht _ hm
    have hd := ih hc.1
    exact ⟨le_trans hd.1 hc.2.1, le_trans hd.2 hc.2.2⟩

/-- C1, amended: for every scene tree `parse_tag` builds, every descendant's
bottom-right corner is dominated by its container's bottom-right corner —
the container's right/bottom edges contain every descendant (and its own
intrinsic rectangle), but nothing constrains the left/top edges. -/
theorem parse_tag_bottom_right_containment :
    ∀ (ctm : Matrix3) (t : SvgTag) (e : SvgElement), parse_tag ctm t = some e →
    ∀ d, Descendant d e →
      d.get_bottom_right.x ≤ e.get_bottom_right.x ∧
      d.get_bottom_right.y ≤ e.get_bottom_right.y :=
  fun ctm t e h d hd => built_descendant_bound d e hd ⟨ctm, t, h⟩

/-- C1, counterexample: the builder applied to `tagCE` produces `rootCE`,
whose child `childCE` has a bounding box whose left edge (−5) lies strictly
left of the container's left edge (0) — the container's box does not contain
the descendant's box. -/
theorem parse_tag_child_escapes_left :
    parse_tag Matrix3.identity tagCE = some rootCE ∧
    Descendant childCE rootCE ∧
    childCE.bounding_box.top_left.x < rootCE.bounding_box.top_left.x := by
  refine ⟨?_, Descendant.child ?_, ?_⟩
  · simp [tagCE, parse_tag, parse_children, intrinsic, rectAttrs, effective_ctm,
      max_or, max_f64, Matrix3.identity, Matrix3.mulVec, BoundingBox.new,
      Vec2.add_def, Vec2.sub_def, childCE, rootCE, SvgElement.get_bottom_right,
      SvgElement.bounding_box, BoundingBox.get_bottom_right]
    all_goals norm_num [SvgElement.bounding_box]
  · simp [rootCE, SvgElement.children]
  · norm_num [childCE, rootCE, SvgElement.bounding_box]

/-- C1, witness for the amended theorem at the concrete build of `tagCE`. -/
theorem parse_tag_bottom_right_containment_witness :
    childCE.get_bottom_right.x ≤ rootCE.get_bottom_right.x ∧
    childCE.get_bottom_right.y ≤ rootCE.get_bottom_right.y :=
  parse_tag_bottom_right_containment Matrix3.identity tagCE rootCE
    (by
      simp [tagCE, parse_tag, parse_children, intrinsic, rectAttrs, effective_ctm,
        max_or, max_f64, Matrix3.identity, Matrix3.mulVec, BoundingBox.new,
        Vec2.add_def, Vec2.sub_def, childCE, rootCE, SvgElement.get_bottom_right,
        SvgElement.bounding_box, BoundingBox.get_bottom_right]
      all_goals norm_num [SvgElement.bounding_box])
    childCE (Descendant.child (by simp [rootCE, SvgElement.children]))

/-- An exhausted iterator yields nothing, whatever fuel remains. -/
theorem run_none : ∀ (fuel m : ℕ), TileIterator.run fuel ⟨none, m⟩ = [] := by
  intro fuel m
  cases fuel <;> simp [TileIterator.run, TileIterator.next]

/-- Peeling the current cell off the canonical tail. -/
theorem tilesFrom_cons (c r z maxZ : ℕ) (hc : c < 2 ^ z) :
    tilesFrom c r z maxZ = ⟨c, r, z⟩ :: tilesFrom (c + 1) r z maxZ := by
  have h : 2 ^ z - c = (2 ^ z - (c + 1)) + 1 := by omega
  rw [tilesFrom, tilesFrom, h, List.range'_succ]
  simp [List.cons_append]

/-- Wrapping from the end of a row to the start of the next row. -/
theorem tilesFrom_row_wrap (r z maxZ : ℕ) (hr : r + 1 < 2 ^ z) :
    tilesFrom (2 ^ z) r z maxZ = tilesFrom 0 (r + 1) z maxZ := by
  have h0 : 2 ^ z - 2 ^ z = 0 := by omega
  have h1 : 2 ^ z - (r + 1) = (2 ^ z - (r + 2)) + 1 := by omega
  rw [tilesFrom, tilesFrom, h0, h1, List.range'_succ]
  simp [rowTiles, List.flatMap_cons, List.range_eq_range', List.append_assoc]

/-- A whole zoom level is its row 0 followed by the remaining rows. -/
theorem tilesAtZoom_split (w : ℕ) :
    tilesAtZoom w =
      ((List.range' 0 (2 ^ w - 0)).map (fun col => ⟨col, 0, w⟩))
        ++ (List.range' (0 + 1) (2 ^ w - (0 + 1))).flatMap (rowTiles w) := by
  have hpow : 0 < 2 ^ w := Nat.pos_pow_of_pos w (by norm_num)
  have hr : List.range' 0 (2 ^ w) = 0 :: List.range' 1 (2 ^ w - 1) := by
    have h1 : 2 ^ w = (2 ^ w - 1) + 1 := by omega
    nth_rewrite 1 [h1]
    rw [List.range'_succ]
  rw [tilesAtZoom, List.range_eq_range', hr, List.flatMap_cons]
  simp [rowTiles, List.range_eq_range']

/-- The canonical tail from the origin cell of a zoom level. -/
theorem tilesFrom_zero_zero (w maxZ : ℕ) :
    tilesFrom 0 0 w maxZ =
      tilesAtZoom w ++ (List.range' (w + 1) (maxZ - w)).flatMap tilesAtZoom := by
  rw [tilesFrom, tilesAtZoom_split]

/-- Wrapping from the last cell of a zoom level into the next level. -/
theorem tilesFrom_zoom_wrap (z maxZ : ℕ) (hz : z < maxZ) :
    tilesFrom (2 ^ z) (2 ^ z - 1) z maxZ = tilesFrom 0 0 (z + 1) maxZ := by
  have h0 : 2 ^ z - 2 ^ z = 0 := by omega
  have h1 : 2 ^ z - (2 ^ z - 1 + 1) = 0 := by omega
  have h2 : maxZ - z = (maxZ - (z + 1)) + 1 := by omega
  rw [tilesFrom, h0, h1, h2, List.range'_succ, tilesFrom_zero_zero]
  simp [List.flatMap_cons]

/-- Past the last cell of the final zoom level nothing remains. -/
theorem tilesFrom_exhausted (z maxZ : ℕ) (h : maxZ ≤ z) :
    tilesFrom (2 ^ z) (2 ^ z - 1) z maxZ = [] := by
  have h0 : 2 ^ z - 2 ^ z = 0 := by omega
  have h1 : 2 ^ z - (2 ^ z - 1 + 1) = 0 := by omega
  have h2 : maxZ - z = 0 := by omega
  rw [tilesFrom, h0, h1, h2]
  simp

/-- The canonical tail is nonempty while a column remains. -/
theorem tilesFrom_length_pos (c r z maxZ : ℕ) (hc : c < 2 ^ z) :
    0 < (tilesFrom c r z maxZ).length := by
  rw [tilesFrom]
  simp only [List.length_append, List.length_map, List.length_range']
  omega

/-- One productive step of the iterator, as `run` consumes it. -/
theorem run_step (fuel : ℕ) (it it' : TileIterator) (c : TileCoords)
    (h : it.next = (some c, it')) :
    TileIterator.run (fuel + 1) it = c :: TileIterator.run fuel it' := by
  rw [TileIterator.run, h]

/-- With enough fuel, draining the iterator from any in-range state yields
exactly the canonical tail from that state. -/
theorem run_eq_tilesFrom :
    ∀ (fuel c r z maxZ : ℕ), c < 2 ^ z → r < 2 ^ z →
    (tilesFrom c r z maxZ).length ≤ fuel →
    TileIterator.run fuel ⟨some ⟨c, r, z⟩, maxZ⟩ = tilesFrom c r z maxZ := by
  intro fuel
  induction fuel with
  | zero =>
    intro c r z maxZ hc _ hlen
    have := tilesFrom_length_pos c r z maxZ hc
    omega
  | succ fuel ih =>
    intro c r z maxZ hc hr hlen
    have hM : 0 < 2 ^ z := Nat.pos_pow_of_pos z (by norm_num)
    rw [tilesFrom_cons c r z maxZ hc] at hlen ⊢
    simp only [List.length_cons] at hlen
    by_cases h1 : c < TileIterator.max_coords_for_zoom_level z
    · have hnext : TileIterator.next ⟨some ⟨c, r, z⟩, maxZ⟩ =
          (some ⟨c, r, z⟩, ⟨some ⟨c + 1, r, z⟩, maxZ⟩) := by
        simp [TileIterator.next, h1]
      have hc1 : c + 1 < 2 ^ z := by
        have : TileIterator.max_coords_for_zoom_level z = 2 ^ z - 1 := rfl
        omega
      rw [run_step fuel _ _ _ hnext, ih (c + 1) r z maxZ hc1 hr (by omega)]
    · have hceq : c = 2 ^ z - 1 := by
        have : TileIterator.max_coords_for_zoom_level z = 2 ^ z - 1 := rfl
        omega
      have hc1 : c + 1 = 2 ^ z := by omega
      by_cases h2 : r < TileIterator.max_coords_for_zoom_level z
      · have hnext : TileIterator.next ⟨some ⟨c, r, z⟩, maxZ⟩ =
            (some ⟨c, r, z⟩, ⟨some ⟨0, r + 1, z⟩, maxZ⟩) := by
          simp [TileIterator.next, h1, h2]
        have hr1 : r + 1 < 2 ^ z := by
          have : TileIterator.max_coords_for_zoom_level z = 2 ^ z - 1 := rfl
          omega
        have htail : tilesFrom (c + 1) r z maxZ = tilesFrom 0 (r + 1) z maxZ := by
          rw [hc1, tilesFrom_row_wrap r z maxZ hr1]
        rw [htail] at hlen ⊢
        rw [run_step fuel _ _ _ hnext, ih 0 (r + 1) z maxZ hM hr1 (by omega)]
      · have hreq : r = 2 ^ z - 1 := by
          have : TileIterator.max_coords_for_zoom_level z = 2 ^ z - 1 := rfl
          omega
        by_cases h3 : z < maxZ
        · have hnext : TileIterator.next ⟨some ⟨c, r, z⟩, maxZ⟩ =
              (some ⟨c, r, z⟩, ⟨some ⟨0, 0, z + 1⟩, maxZ⟩) := by
            simp [TileIterator.next, h1, h2, h3]
          have hM1 : 0 < 2 ^ (z + 1) := Nat.pos_pow_of_pos (z + 1) (by norm_num)
          have htail : tilesFrom (c + 1) r z maxZ = tilesFrom 0 0 (z + 1) maxZ := by
            rw [hc1, hreq, tilesFrom_zoom_wrap z maxZ h3]
          rw [htail] at hlen ⊢
          rw [run_step fuel _ _ _ hnext, ih 0 0 (z + 1) maxZ hM1 hM1 (by omega)]
        · have hnext : TileIterator.next ⟨some ⟨c, r, z⟩, maxZ⟩ =
              (some ⟨c, r, z⟩, ⟨none, maxZ⟩) := by
            simp [TileIterator.next, h1, h2, h3]
          have htail : tilesFrom (c + 1) r z maxZ = [] := by
            rw [hc1, hreq, tilesFrom_exhausted z maxZ (by omega)]
          rw [htail, run_step fuel _ _ _ hnext, run_none]

/-- The canonical enumeration over a zoom range starts at the origin cell of
the lowest level. -/
theorem canonicalTiles_eq_tilesFrom (minZ maxZ : ℕ) (h : minZ ≤ maxZ) :
    canonicalTiles minZ maxZ = tilesFrom 0 0 minZ maxZ := by
  have h1 : maxZ + 1 - minZ = (maxZ - minZ) + 1 := by omega
  rw [canonicalTiles, h1, List.range'_succ, List.flatMap_cons, tilesFrom_zero_zero]

/-- C4: over a zoom range the iterator yields exactly the canonical
row-major enumeration — column fastest, then row, then zoom — terminating
after the last tile of the top level; every yielded coordinate satisfies
`col, row < 2^zoom` with zoom in range, and over zooms 0..=2 exactly 21
distinct coordinates come out. -/
theorem tile_iterator_enumeration :
    ∀ (minZ maxZ fuel : ℕ), minZ ≤ maxZ →
    (canonicalTiles minZ maxZ).length ≤ fuel →
    (TileIterator.run fuel (TileIterator.new minZ maxZ) = canonicalTiles minZ maxZ ∧
     ∀ tc ∈ canonicalTiles minZ maxZ,
       tc.col < 2 ^ tc.zoom ∧ tc.row < 2 ^ tc.zoom ∧
       minZ ≤ tc.zoom ∧ tc.zoom ≤ maxZ) ∧
    ((TileIterator.run 21 (TileIterator.new 0 2)).length = 21 ∧
     (TileIterator.run 21 (TileIterator.new 0 2)).Nodup) := by
  intro minZ maxZ fuel hle hfuel
  refine ⟨⟨?_, ?_⟩, by decide, by decide⟩
  · rw [canonicalTiles_eq_tilesFrom minZ maxZ hle] at hfuel ⊢
    have h0 : (0 : ℕ) < 2 ^ minZ := Nat.pos_pow_of_pos minZ (by norm_num)
    exact run_eq_tilesFrom fuel 0 0 minZ maxZ h0 h0 hfuel
  · intro tc htc
    rw [canonicalTiles] at htc
    obtain ⟨z, hz, htc⟩ := List.mem_flatMap.mp htc
    rw [tilesAtZoom] at htc
    obtain ⟨row, hrow, htc⟩ := List.mem_flatMap.mp htc
    rw [rowTiles] at htc
    obtain ⟨col, hcol, heq⟩ := List.mem_map.mp htc
    subst heq
    have hz' := List.mem_range'_1.mp hz
    have hrow' := List.mem_range.mp hrow
    have hcol' := List.mem_range.mp hcol
    have h1 : minZ ≤ z := by omega
    have h2 : z ≤ maxZ := by omega
    exact ⟨hcol', hrow', h1, h2⟩

/-- C4 witness: the enumeration theorem applied to the zoom range 0..=1 with
fuel 5. -/
theorem tile_iterator_enumeration_witness :
    ((0 : ℕ) ≤ 1 ∧ (canonicalTiles 0 1).length ≤ 5) ∧
    ((TileIterator.run 5 (TileIterator.new 0 1) = canonicalTiles 0 1 ∧
      ∀ tc ∈ canonicalTiles 0 1,
        tc.col < 2 ^ tc.zoom ∧ tc.row < 2 ^ tc.zoom ∧
        0 ≤ tc.zoom ∧ tc.zoom ≤ 1) ∧
     ((TileIterator.run 21 (TileIterator.new 0 2)).length = 21 ∧
      (TileIterator.run 21 (TileIterator.new 0 2)).Nodup)) :=
  ⟨⟨by decide, by decide⟩, tile_iterator_enumeration 0 1 5 (by decide) (by decide)⟩

/-- One scan step leaves the running minimum at most the running maximum on
both axes, whatever the incoming state was. -/
theorem minmaxStep_invariant (st : ℚ × ℚ × ℚ × ℚ) (c : Command) :
    (minmaxStep st c).1 ≤ (minmaxStep st c).2.1 ∧
    (minmaxStep st c).2.2.1 ≤ (minmaxStep st c).2.2.2 := by
  simp only [minmaxStep]
  split_ifs <;> constructor <;> simp_all <;> linarith

/-- The whole scan preserves the min ≤ max invariant. -/
theorem foldl_minmax_invariant :
    ∀ (cs : List Command) (st : ℚ × ℚ × ℚ × ℚ),
    st.1 ≤ st.2.1 → st.2.2.1 ≤ st.2.2.2 →
    (cs.foldl minmaxStep st).1 ≤ (cs.foldl minmaxStep st).2.1 ∧
      (cs.foldl minmaxStep st).2.2.1 ≤ (cs.foldl minmaxStep st).2.2.2 := by
  intro cs
  induction cs with
  | nil => intro st h1 h2; exact ⟨h1, h2⟩
  | cons c cs ih =>
    intro st h1 h2
    simp only [List.foldl_cons]
    exact ih _ (minmaxStep_invariant st c).1 (minmaxStep_invariant st c).2

/-- C10, amended: `BoundingBox::new` stores its arguments unvalidated, and
the path-derived constructor produces nonnegative width and height exactly
when the interpreted path is nonempty; on an empty path it leaves the
initial `f32::MAX`/`f32::MIN` extremes in place and the size is negative
(the counterexample above). -/
theorem boundingBoxFromData_nonneg :
    ∀ data : List RawCommand, pathFromData data ≠ [] →
    0 ≤ (boundingBoxFromData data).size.x ∧
      0 ≤ (boundingBoxFromData data).size.y := by
  intro data h
  obtain ⟨c, cs, hcons⟩ := List.exists_cons_of_ne_nil h
  simp only [boundingBoxFromData, BoundingBox.new, hcons, List.foldl_cons]
  have hinv := foldl_minmax_invariant cs (minmaxStep (f32MAX, f32MIN, f32MAX, f32MIN) c)
    (minmaxStep_invariant _ c).1 (minmaxStep_invariant _ c).2
  constructor <;> simp only [Vec2.sub_def] <;> linarith [hinv.1, hinv.2]

/-- C10, witness for the amended theorem at a one-point path. -/
theorem boundingBoxFromData_nonneg_witness :
    pathFromData [RawCommand.Move Position.Absolute [1, 2]] ≠ [] ∧
    (0 ≤ (boundingBoxFromData [RawCommand.Move Position.Absolute [1, 2]]).size.x ∧
     0 ≤ (boundingBoxFromData [RawCommand.Move Position.Absolute [1, 2]]).size.y) :=
  ⟨by
     simp only [pathFromData, List.foldl_cons, List.foldl_nil]
     simp [Command.from_raw_command, Command.from_coords_position, chunksExact],
   boundingBoxFromData_nonneg _ (by
     simp only [pathFromData, List.foldl_cons, List.foldl_nil]
     simp [Command.from_raw_command, Command.from_coords_position, chunksExact])⟩

end IndoorMap
